import Mathlib

/-!
A shallow embedding of `src/librustc/metadata/cstore.rs` — the crate store,
a central registry for information collected about external crates and
libraries — together with proofs of its specified properties.

Modelling conventions:
* `ast::CrateNum` and `ast::NodeId` are machine integers used only as keys;
  they are modelled as `Nat`.
* `HashMap` registries are modelled as association lists with a first-match
  lookup; the insertion replaces any previous binding for the key.  Iteration
  order of a `HashMap` is unspecified, so theorems about iteration quantify
  over every association-list order.
* `~str` and `Path` are modelled as `String`; the character-level splitting
  done by `add_used_link_args` works on the underlying `List Char`.
* A Rust `fail!`/failed `assert!`/panicking lookup is modelled by `Option`
  (`none` = the fatal failure).
* The recursive depth-first `visit` in `get_used_crates` is given explicit
  fuel; theorems take a hypothesis that the traversal completed.
-/

namespace CStoreModel

abbrev CrateNum := Nat
abbrev NodeId := Nat
abbrev RPath := String

/-- `MetadataBlob`: owned byte vector or a borrowed archive view; both expose
their bytes through `as_slice`. -/
inductive MetadataBlob where
  | MetadataVec (bytes : List Nat)
  | MetadataArchive (bytes : List Nat)
deriving DecidableEq

def MetadataBlob.as_slice : MetadataBlob → List Nat
  | .MetadataVec v => v
  | .MetadataArchive a => a

/-- `crate_metadata`: name, metadata blob, dependency renumbering map
(foreign crate number → session crate number), and own crate number. -/
structure crate_metadata where
  name : String
  data : MetadataBlob
  cnum_map : List (CrateNum × CrateNum)
  cnum : CrateNum
deriving DecidableEq

inductive LinkagePreference where
  | RequireDynamic
  | RequireStatic
deriving DecidableEq

inductive NativeLibaryKind where
  | NativeStatic
  | NativeFramework
  | NativeUnknown
deriving DecidableEq

/-- `CrateSource`: where a crate came from on the local filesystem.
Equality is structural (`#[deriving(Eq)]` in the source). -/
structure CrateSource where
  dylib : Option RPath
  rlib : Option RPath
  cnum : CrateNum
deriving DecidableEq

/-- The crate store: five registries plus the shared identifier interner
(opaque here, modelled by a `Nat` tag). -/
structure CStore where
  metas : List (CrateNum × crate_metadata)
  extern_mod_crate_map : List (NodeId × CrateNum)
  used_crate_sources : List CrateSource
  used_libraries : List (String × NativeLibaryKind)
  used_link_args : List String
  intr : Nat
deriving DecidableEq

/-- First-match association-list lookup (the `HashMap` read). -/
def hmLookup {α : Type} : List (Nat × α) → Nat → Option α
  | [], _ => none
  | (k, v) :: m, c => if k = c then some v else hmLookup m c

/-- `HashMap::insert`: bind `k` to `v`, replacing any previous binding. -/
def hmInsert {α : Type} (m : List (Nat × α)) (k : Nat) (v : α) : List (Nat × α) :=
  (k, v) :: m.filter (fun p => p.1 != k)

def CStore.new (intr : Nat) : CStore :=
  { metas := [], extern_mod_crate_map := [], used_crate_sources := [],
    used_libraries := [], used_link_args := [], intr := intr }

/-- `get_crate_data`: panicking lookup (`none` models the failure on an
unregistered crate number). -/
def CStore.get_crate_data (s : CStore) (cnum : CrateNum) : Option crate_metadata :=
  hmLookup s.metas cnum

def CStore.set_crate_data (s : CStore) (cnum : CrateNum) (data : crate_metadata) : CStore :=
  { s with metas := hmInsert s.metas cnum data }

def CStore.have_crate_data (s : CStore) (cnum : CrateNum) : Bool :=
  (hmLookup s.metas cnum).isSome

def CStore.add_used_crate_source (s : CStore) (src : CrateSource) : CStore :=
  if src ∈ s.used_crate_sources then s
  else { s with used_crate_sources := s.used_crate_sources ++ [src] }

/-- First entry with the given crate number (`Iterator::find`). -/
def findSource : List CrateSource → CrateNum → Option CrateSource
  | [], _ => none
  | src :: l, c => if src.cnum = c then some src else findSource l c

def CStore.get_used_crate_source (s : CStore) (cnum : CrateNum) : Option CrateSource :=
  findSource s.used_crate_sources cnum

def CStore.reset (s : CStore) : CStore :=
  { s with metas := [], extern_mod_crate_map := [], used_crate_sources := [],
           used_libraries := [], used_link_args := [] }

/-- `add_used_library`: `assert!(!lib.is_empty())` then push; `none` models
the failed assertion. -/
def CStore.add_used_library (s : CStore) (lib : String) (kind : NativeLibaryKind) :
    Option CStore :=
  if lib = "" then none
  else some { s with used_libraries := s.used_libraries ++ [(lib, kind)] }

/-- Rust `str::split(' ')`: substrings between the space characters, keeping
empty pieces (so the result always has one more piece than there are
spaces). -/
def splitSpace : List Char → List (List Char)
  | [] => [[]]
  | c :: rest =>
    if c = ' ' then [] :: splitSpace rest
    else
      match splitSpace rest with
      | [] => [[c]]
      | t :: ts => (c :: t) :: ts

def CStore.add_used_link_args (s : CStore) (args : String) : CStore :=
  { s with used_link_args :=
      s.used_link_args ++ (splitSpace args.toList).map (fun t => String.mk t) }

def CStore.add_extern_mod_stmt_cnum (s : CStore) (emod_id : NodeId) (cnum : CrateNum) :
    CStore :=
  { s with extern_mod_crate_map := hmInsert s.extern_mod_crate_map emod_id cnum }

def CStore.find_extern_mod_stmt_cnum (s : CStore) (emod_id : NodeId) : Option CrateNum :=
  hmLookup s.extern_mod_crate_map emod_id

/-- The dependency crate numbers of one metadata record: the values of its
`cnum_map`. -/
def depsOf (meta : crate_metadata) : List CrateNum :=
  meta.cnum_map.map Prod.snd

mutual
/-- The recursive `visit` of `get_used_crates`: skip crate numbers already in
the ordering, otherwise look the crate up, visit each dependency, then push
the crate.  `fuel` bounds the recursion depth (the source recursion is
unbounded; on a cyclic graph it would not terminate, which the model reports
as `none`).  A failed `get_crate_data` lookup is also `none`. -/
def visitF (metas : List (CrateNum × crate_metadata)) :
    Nat → CrateNum → List CrateNum → Option (List CrateNum)
  | 0, _, _ => none
  | fuel+1, cnum, ordering =>
    if cnum ∈ ordering then some ordering
    else
      match hmLookup metas cnum with
      | none => none
      | some meta =>
        match visitList metas fuel (depsOf meta) ordering with
        | none => none
        | some ord1 => some (ord1 ++ [cnum])
termination_by fuel _ _ => (fuel, 0)

/-- Visit a list of crate numbers in turn, threading the ordering. -/
def visitList (metas : List (CrateNum × crate_metadata)) :
    Nat → List CrateNum → List CrateNum → Option (List CrateNum)
  | _, [], ordering => some ordering
  | fuel, d :: ds, ordering =>
    match visitF metas fuel d ordering with
    | none => none
    | some ord1 => visitList metas fuel ds ord1
termination_by fuel ds _ => (fuel, ds.length + 1)
end

/-- `Vec::position_elem`: index of the first occurrence, `none` if absent. -/
def position_elem : List CrateNum → CrateNum → Option Nat
  | [], _ => none
  | y :: l, x => if y = x then some 0 else (position_elem l x).map (· + 1)

/-- The comparator of `get_used_crates`'s final sort, as a boolean `≤`:
`Option<uint>` ordering with `None` before every `Some` (the derived `Ord`
of Rust's `Option`). -/
def optPosLe : Option Nat → Option Nat → Bool
  | none, _ => true
  | some _, none => false
  | some a, some b => decide (a ≤ b)

/-- The topological ordering `get_used_crates` computes: depth-first
post-order from every registered crate number, then reversed. -/
def CStore.link_ordering (s : CStore) (fuel : Nat) : Option (List CrateNum) :=
  match visitList s.metas fuel (s.metas.map Prod.fst) [] with
  | none => none
  | some ord => some ord.reverse

/-- `get_used_crates`: map every used crate source to
`(cnum, dylib or rlib per the preference)` and stable-sort by the position
of the crate number in the computed ordering. -/
def CStore.get_used_crates (s : CStore) (prefer : LinkagePreference) (fuel : Nat) :
    Option (List (CrateNum × Option RPath)) :=
  match s.link_ordering fuel with
  | none => none
  | some ordering =>
    some ((s.used_crate_sources.map (fun src =>
      (src.cnum, match prefer with
        | LinkagePreference.RequireDynamic => src.dylib
        | LinkagePreference.RequireStatic => src.rlib))).mergeSort
      (fun a b => optPosLe (position_elem ordering a.1) (position_elem ordering b.1)))

/-- An edge of the dependency graph: `d` occurs as a value in the `cnum_map`
of the record registered for `c`. -/
def Edge (metas : List (CrateNum × crate_metadata)) (c d : CrateNum) : Prop :=
  ∃ meta, hmLookup metas c = some meta ∧ d ∈ depsOf meta

/-- Reachability along dependency edges (reflexive-transitive closure). -/
inductive Reach (metas : List (CrateNum × crate_metadata)) : CrateNum → CrateNum → Prop
  | refl (c : CrateNum) : Reach metas c c
  | head {c d e : CrateNum} : Edge metas c d → Reach metas d e → Reach metas c e

/-- Invariant of the post-order list: every dependency of a recorded crate is
recorded strictly earlier. -/
def GoodOrd (metas : List (CrateNum × crate_metadata)) (ord : List CrateNum) : Prop :=
  ∀ c d, Edge metas c d → c ∈ ord →
    ∃ i j, position_elem ord d = some i ∧ position_elem ord c = some j ∧ i < j

/-- Rejoin split pieces with single spaces (used to characterise
`splitSpace`). -/
def joinSpaces : List (List Char) → List Char
  | [] => []
  | [t] => t
  | t :: t2 :: ts => t ++ ' ' :: joinSpaces (t2 :: ts)

/-- A metadata record with the given crate number and dependency values
(arbitrary name and blob; foreign numbers are the list positions). -/
def mkMeta (cnum : CrateNum) (deps : List CrateNum) : crate_metadata :=
  { name := "c", data := MetadataBlob.MetadataVec [],
    cnum_map := deps.map (fun d => (d, d)), cnum := cnum }

/-- The diamond of the spec's concrete scenario: `0 → {2, 3}`, `1 → 2`,
`2 → 3`, `3 → {}` (every dependency has a larger crate number). -/
def exDiamondMetas : List (CrateNum × crate_metadata) :=
  [(0, mkMeta 0 [2, 3]), (1, mkMeta 1 [2]), (2, mkMeta 2 [3]), (3, mkMeta 3 [])]

def exDiamondStore : CStore :=
  { metas := exDiamondMetas, extern_mod_crate_map := [],
    used_crate_sources :=
      [{ dylib := some "d0", rlib := some "r0", cnum := 0 },
       { dylib := some "d1", rlib := some "r1", cnum := 1 },
       { dylib := some "d2", rlib := some "r2", cnum := 2 },
       { dylib := some "d3", rlib := some "r3", cnum := 3 }],
    used_libraries := [], used_link_args := [], intr := 0 }

/-- A rank function witnessing acyclicity of `exDiamondMetas`. -/
def exRank : CrateNum → Nat := fun n => 4 - n

/-- One registered crate (number 1) but a used crate source for the
unregistered crate number 2 ahead of the one for 1. -/
def exStrayStore : CStore :=
  { metas := [(1, mkMeta 1 [])], extern_mod_crate_map := [],
    used_crate_sources :=
      [{ dylib := some "d2", rlib := some "r2", cnum := 2 },
       { dylib := some "d1", rlib := some "r1", cnum := 1 }],
    used_libraries := [], used_link_args := [], intr := 0 }

/-- No registered crates at all; two used crate sources, both with crate
numbers absent from the (empty) ordering. -/
def exAbsentStore : CStore :=
  { metas := [], extern_mod_crate_map := [],
    used_crate_sources :=
      [{ dylib := some "a", rlib := none, cnum := 5 },
       { dylib := some "b", rlib := none, cnum := 6 }],
    used_libraries := [], used_link_args := [], intr := 0 }

def exRec : crate_metadata := mkMeta 7 []

def exRec2 : crate_metadata := mkMeta 8 [7]

def exSrc : CrateSource := { dylib := some "libx.so", rlib := none, cnum := 9 }

def exSrc2 : CrateSource := { dylib := none, rlib := some "libx.rlib", cnum := 9 }

/-! ## Association-list (`HashMap`) lemmas -/

theorem hmLookup_filter_ne {α : Type} (m : List (Nat × α)) (k c : Nat) (h : k ≠ c) :
    hmLookup (m.filter (fun p => p.1 != k)) c = hmLookup m c := by
  induction m with
  | nil => rfl
  | cons p m ih =>
    obtain ⟨a, b⟩ := p
    by_cases hak : a = k
    · subst hak
      have hac : a ≠ c := h
      simp [List.filter_cons, hmLookup, hac, ih]
    · simp [List.filter_cons, hmLookup, hak, ih]

theorem hmLookup_hmInsert_self {α : Type} (m : List (Nat × α)) (k : Nat) (v : α) :
    hmLookup (hmInsert m k v) k = some v := by
  simp [hmInsert, hmLookup]

theorem hmLookup_hmInsert_ne {α : Type} (m : List (Nat × α)) (k c : Nat) (v : α)
    (h : k ≠ c) : hmLookup (hmInsert m k v) c = hmLookup m c := by
  simp only [hmInsert, hmLookup, if_neg h]
  exact hmLookup_filter_ne m k c h

theorem hmLookup_isSome_iff {α : Type} (m : List (Nat × α)) (k : Nat) :
    (hmLookup m k).isSome = true ↔ k ∈ m.map Prod.fst := by
  induction m with
  | nil => simp [hmLookup]
  | cons p m ih =>
    obtain ⟨a, b⟩ := p
    by_cases h : a = k
    · subst h
      simp [hmLookup]
    · simp [hmLookup, h, ih, Ne.symm h]

/-! ## `splitSpace` lemmas -/

theorem splitSpace_ne_nil (l : List Char) : splitSpace l ≠ [] := by
  cases l with
  | nil => simp [splitSpace]
  | cons c rest =>
    by_cases h : c = ' '
    · simp [splitSpace, h]
    · simp only [splitSpace, if_neg h]
      cases splitSpace rest <;> simp

theorem join_splitSpace (l : List Char) : joinSpaces (splitSpace l) = l := by
  induction l with
  | nil => rfl
  | cons c rest ih =>
    by_cases h : c = ' '
    · rcases hsp : splitSpace rest with _ | ⟨t, ts⟩
      · exact absurd hsp (splitSpace_ne_nil rest)
      · rw [hsp] at ih
        simp only [splitSpace, if_pos h, hsp, joinSpaces, h]
        simpa using ih
    · rcases hsp : splitSpace rest with _ | ⟨t, ts⟩
      · exact absurd hsp (splitSpace_ne_nil rest)
      · rw [hsp] at ih
        cases ts with
        | nil => simp only [splitSpace, if_neg h, hsp, joinSpaces] at ih ⊢; rw [ih]
        | cons t2 ts2 => simp only [splitSpace, if_neg h, hsp, joinSpaces] at ih ⊢; rw [← ih]; rfl

theorem splitSpace_no_space (l : List Char) : ∀ t ∈ splitSpace l, ' ' ∉ t := by
  induction l with
  | nil =>
    intro t h
    simp [splitSpace] at h
    simp [h]
  | cons c rest ih =>
    intro t h
    by_cases hc : c = ' '
    · rw [splitSpace, if_pos hc, List.mem_cons] at h
      rcases h with h | h
      · simp [h]
      · exact ih t h
    · rw [splitSpace, if_neg hc] at h
      rcases hsp : splitSpace rest with _ | ⟨t0, ts⟩
      · exact absurd hsp (splitSpace_ne_nil rest)
      · rw [hsp, List.mem_cons] at h
        rcases h with h | h
        · subst h
          intro hmem
          rcases List.mem_cons.mp hmem with h1 | h1
          · exact hc h1.symm
          · exact ih t0 (by rw [hsp]; exact List.mem_cons_self t0 ts) h1
        · exact ih t (by rw [hsp]; exact List.mem_cons_of_mem t0 h)

theorem splitSpace_length (l : List Char) : (splitSpace l).length = l.count ' ' + 1 := by
  induction l with
  | nil => simp [splitSpace]
  | cons c rest ih =>
    by_cases h : c = ' '
    · simp [splitSpace, h, List.count_cons, ih]
    · rcases hsp : splitSpace rest with _ | ⟨t, ts⟩
      · exact absurd hsp (splitSpace_ne_nil rest)
      · rw [hsp] at ih
        simp only [splitSpace, if_neg h, hsp, List.length_cons, List.count_cons] at ih ⊢
        simp [ih, h]

/-! ## Claims C3–C10 (registries, lifecycle, error handling) -/

/-- C3: after `set_crate_data c r`, `have_crate_data c` is true and
`get_crate_data c` returns `r`; a second `set_crate_data c r2` makes
`get_crate_data c` return `r2` (last write wins, no conflict detection);
an intervening `set_crate_data` for a different crate number does not
disturb the binding. -/
theorem set_crate_data_spec (s : CStore) (c c' : CrateNum) (r r2 : crate_metadata) :
    (s.set_crate_data c r).have_crate_data c = true ∧
    (s.set_crate_data c r).get_crate_data c = some r ∧
    ((s.set_crate_data c r).set_crate_data c r2).get_crate_data c = some r2 ∧
    (c' ≠ c → ((s.set_crate_data c r).set_crate_data c' r2).get_crate_data c = some r) := by
  refine ⟨?_, ?_, ?_, ?_⟩
  · simp [CStore.set_crate_data, CStore.have_crate_data, hmLookup_hmInsert_self]
  · simp [CStore.set_crate_data, CStore.get_crate_data, hmLookup_hmInsert_self]
  · simp [CStore.set_crate_data, CStore.get_crate_data, hmLookup_hmInsert_self]
  · intro h
    show hmLookup (hmInsert (hmInsert s.metas c r) c' r2) c = some r
    rw [hmLookup_hmInsert_ne _ _ _ _ h, hmLookup_hmInsert_self]

theorem set_crate_data_spec_witness :
    (((CStore.new 0).set_crate_data 7 exRec).set_crate_data 8 exRec2).get_crate_data 7
      = some exRec :=
  (set_crate_data_spec (CStore.new 0) 7 8 exRec exRec2).2.2.2 (by decide)

/-- C4: `reset` simultaneously empties all five registries — crate metadata,
extern-mod map, used crate sources, used libraries, used link args — and
leaves the interner unchanged. -/
theorem reset_spec (s : CStore) (c : CrateNum) (u : NodeId) :
    (s.reset).have_crate_data c = false ∧
    (s.reset).find_extern_mod_stmt_cnum u = none ∧
    (s.reset).get_used_crate_source c = none ∧
    (s.reset).used_libraries = [] ∧
    (s.reset).used_link_args = [] ∧
    (s.reset).intr = s.intr :=
  ⟨rfl, rfl, rfl, rfl, rfl, rfl⟩

theorem add_used_crate_source_mem (s : CStore) (src : CrateSource)
    (h : src ∈ s.used_crate_sources) : s.add_used_crate_source src = s := by
  simp [CStore.add_used_crate_source, h]

theorem add_used_crate_source_not_mem (s : CStore) (src : CrateSource)
    (h : src ∉ s.used_crate_sources) :
    s.add_used_crate_source src
      = { s with used_crate_sources := s.used_crate_sources ++ [src] } := by
  simp [CStore.add_used_crate_source, h]

/-- C5: `add_used_crate_source` deduplicates on structural equality — adding
the same source twice stores it exactly once — while two distinct sources for
the same crate number are both kept, in insertion order. -/
theorem add_used_crate_source_spec (s : CStore) (src src1 src2 : CrateSource) :
    (src ∉ s.used_crate_sources →
      ((s.add_used_crate_source src).add_used_crate_source src).used_crate_sources
        = s.used_crate_sources ++ [src] ∧
      List.count src
        ((s.add_used_crate_source src).add_used_crate_source src).used_crate_sources = 1) ∧
    (src1 ≠ src2 → src1.cnum = src2.cnum →
      src1 ∉ s.used_crate_sources → src2 ∉ s.used_crate_sources →
      ((s.add_used_crate_source src1).add_used_crate_source src2).used_crate_sources
        = s.used_crate_sources ++ [src1, src2]) := by
  constructor
  · intro h
    have h1 : (s.add_used_crate_source src).used_crate_sources
        = s.used_crate_sources ++ [src] := by
      rw [add_used_crate_source_not_mem s src h]
    have h2 : ((s.add_used_crate_source src).add_used_crate_source src).used_crate_sources
        = s.used_crate_sources ++ [src] := by
      rw [add_used_crate_source_mem _ src (by rw [h1]; simp), h1]
    refine ⟨h2, ?_⟩
    rw [h2, List.count_append, List.count_eq_zero_of_not_mem h, List.count_singleton_self]
  · intro hne hcnum h1 h2
    have e1 : (s.add_used_crate_source src1).used_crate_sources
        = s.used_crate_sources ++ [src1] := by
      rw [add_used_crate_source_not_mem s src1 h1]
    have hnotin : src2 ∉ (s.add_used_crate_source src1).used_crate_sources := by
      rw [e1]
      simp [h2, Ne.symm hne]
    rw [add_used_crate_source_not_mem _ src2 hnotin, e1, List.append_assoc]
    rfl

theorem add_used_crate_source_spec_witness :
    (((CStore.new 0).add_used_crate_source exSrc).add_used_crate_source exSrc).used_crate_sources
      = (CStore.new 0).used_crate_sources ++ [exSrc] ∧
    (((CStore.new 0).add_used_crate_source exSrc).add_used_crate_source exSrc2).used_crate_sources
      = (CStore.new 0).used_crate_sources ++ [exSrc, exSrc2] :=
  ⟨((add_used_crate_source_spec (CStore.new 0) exSrc exSrc exSrc2).1 (by decide)).1,
   (add_used_crate_source_spec (CStore.new 0) exSrc exSrc exSrc2).2
     (by decide) (by decide) (by decide) (by decide)⟩

/-- C6: `add_used_library` fails exactly when the name is the empty string,
whatever the kind; for a non-empty name it unconditionally appends the
`(name, kind)` pair, so duplicates are retained. -/
theorem add_used_library_spec (s : CStore) (lib : String) (kind : NativeLibaryKind) :
    (s.add_used_library lib kind = none ↔ lib = "") ∧
    (∀ s', s.add_used_library lib kind = some s' →
      s'.used_libraries = s.used_libraries ++ [(lib, kind)]) := by
  constructor
  · constructor
    · intro h
      by_cases hl : lib = ""
      · exact hl
      · simp [CStore.add_used_library, hl] at h
    · intro h
      simp [CStore.add_used_library, h]
  · intro s' h
    by_cases hl : lib = ""
    · simp [CStore.add_used_library, hl] at h
    · rw [CStore.add_used_library, if_neg hl] at h
      cases h
      rfl

theorem add_used_library_spec_witness :
    ((CStore.new 0).add_used_library "" NativeLibaryKind.NativeStatic = none) ∧
    ({ CStore.new 0 with
        used_libraries := [("m", NativeLibaryKind.NativeStatic)] } : CStore).used_libraries
      = (CStore.new 0).used_libraries ++ [("m", NativeLibaryKind.NativeStatic)] :=
  ⟨(add_used_library_spec (CStore.new 0) "" NativeLibaryKind.NativeStatic).1.mpr rfl,
   (add_used_library_spec (CStore.new 0) "m" NativeLibaryKind.NativeStatic).2 _ (by decide)⟩

/-- C7: `add_used_link_args` splits the argument on single-space boundaries
and appends every token in order: the split rejoined with single spaces is
the original string, no token contains a space, and `"-lm -lpthread"` on an
empty registry stores exactly `["-lm", "-lpthread"]`. -/
theorem add_used_link_args_spec (s : CStore) :
    (∀ args : String, (s.add_used_link_args args).used_link_args
        = s.used_link_args ++ (splitSpace args.toList).map (fun t => String.mk t)) ∧
    (∀ l : List Char, joinSpaces (splitSpace l) = l) ∧
    (∀ l t : List Char, t ∈ splitSpace l → ' ' ∉ t) ∧
    (s.used_link_args = [] →
      (s.add_used_link_args "-lm -lpthread").used_link_args = ["-lm", "-lpthread"]) := by
  refine ⟨fun args => rfl, join_splitSpace, splitSpace_no_space, ?_⟩
  intro h
  show s.used_link_args ++ _ = _
  rw [h]
  rfl

theorem add_used_link_args_spec_witness :
    ((CStore.new 0).add_used_link_args "-lm -lpthread").used_link_args
      = ["-lm", "-lpthread"] ∧
    ' ' ∉ String.toList "-lm" :=
  ⟨(add_used_link_args_spec (CStore.new 0)).2.2.2 rfl,
   (add_used_link_args_spec (CStore.new 0)).2.2.1
     (String.toList "-lm -lpthread") (String.toList "-lm") (by decide)⟩

/-- C8: looking up a crate number that is not registered (in particular after
`reset`) is a fatal failure of `get_crate_data` (modelled by `none`), while
`have_crate_data` is a total boolean membership test that returns `false`
there. -/
theorem get_crate_data_fatal_spec (s : CStore) (c : CrateNum) :
    (s.get_crate_data c = none ↔ s.have_crate_data c = false) ∧
    ((s.reset).get_crate_data c = none) ∧
    ((s.reset).have_crate_data c = false) := by
  refine ⟨?_, rfl, rfl⟩
  cases h : hmLookup s.metas c <;>
    simp [CStore.get_crate_data, CStore.have_crate_data, h]

/-- C9: `find_extern_mod_stmt_cnum` is absent for a use-site identifier never
registered (fresh store, after `reset`, or only other identifiers
registered), and otherwise returns the most recently added crate number for
that identifier (last write wins). -/
theorem extern_mod_map_spec (s : CStore) (i : Nat) (u u' : NodeId) (c c' : CrateNum) :
    ((CStore.new i).find_extern_mod_stmt_cnum u = none) ∧
    ((s.reset).find_extern_mod_stmt_cnum u = none) ∧
    ((s.add_extern_mod_stmt_cnum u c).find_extern_mod_stmt_cnum u = some c) ∧
    (((s.add_extern_mod_stmt_cnum u c).add_extern_mod_stmt_cnum u c').find_extern_mod_stmt_cnum u
      = some c') ∧
    (u' ≠ u →
      (s.add_extern_mod_stmt_cnum u' c').find_extern_mod_stmt_cnum u
        = s.find_extern_mod_stmt_cnum u) := by
  refine ⟨rfl, rfl, ?_, ?_, ?_⟩
  · exact hmLookup_hmInsert_self _ _ _
  · exact hmLookup_hmInsert_self _ _ _
  · intro h
    exact hmLookup_hmInsert_ne _ _ _ _ h

theorem extern_mod_map_spec_witness :
    ((CStore.new 0).add_extern_mod_stmt_cnum 3 4).find_extern_mod_stmt_cnum 2
      = (CStore.new 0).find_extern_mod_stmt_cnum 2 :=
  (extern_mod_map_spec (CStore.new 0) 0 2 3 4 4).2.2.2.2 (by decide)

/-- C10: `add_used_link_args` keeps the empty tokens produced by consecutive
(or leading/trailing) spaces: `"-a  -b"` stores `["-a", "", "-b"]`, and in
general the number of stored tokens is one more than the number of spaces. -/
theorem add_used_link_args_keeps_empties (s : CStore) :
    ((s.add_used_link_args "-a  -b").used_link_args
      = s.used_link_args ++ ["-a", "", "-b"]) ∧
    (∀ l : List Char, (splitSpace l).length = l.count ' ' + 1) :=
  ⟨rfl, splitSpace_length⟩

/-! ## `position_elem` lemmas -/

theorem position_elem_eq_none (l : List CrateNum) (x : CrateNum) :
    position_elem l x = none ↔ x ∉ l := by
  induction l with
  | nil => simp [position_elem]
  | cons y l ih =>
    by_cases h : y = x
    · simp [position_elem, h]
    · simp [position_elem, h, ih, Ne.symm h]

theorem position_elem_mem (l : List CrateNum) (x : CrateNum) (h : x ∈ l) :
    ∃ i, position_elem l x = some i := by
  cases hp : position_elem l x with
  | none => exact absurd ((position_elem_eq_none l x).mp hp) (by simp [h])
  | some i => exact ⟨i, rfl⟩

theorem position_elem_getElem (l : List CrateNum) (x : CrateNum) (i : Nat)
    (h : position_elem l x = some i) : ∃ hlt : i < l.length, l.get ⟨i, hlt⟩ = x := by
  induction l generalizing i with
  | nil => simp [position_elem] at h
  | cons y l ih =>
    by_cases hy : y = x
    · rw [position_elem, if_pos hy] at h
      cases h
      exact ⟨by simp, hy⟩
    · rw [position_elem, if_neg hy] at h
      obtain ⟨j, hj, rfl⟩ := Option.map_eq_some'.mp h
      obtain ⟨hlt, hg⟩ := ih j hj
      exact ⟨by simpa using Nat.succ_lt_succ hlt, by simpa using hg⟩

theorem position_elem_lt_length (l : List CrateNum) (x : CrateNum) (i : Nat)
    (h : position_elem l x = some i) : i < l.length :=
  (position_elem_getElem l x i h).1

theorem position_elem_of_getElem_nodup (l : List CrateNum) (x : CrateNum) (i : Nat)
    (hnd : l.Nodup) (hlt : i < l.length) (hx : l.get ⟨i, hlt⟩ = x) :
    position_elem l x = some i := by
  induction l generalizing i with
  | nil => simp at hlt
  | cons y l ih =>
    cases i with
    | zero =>
      simp at hx
      simp [position_elem, hx]
    | succ j =>
      have hjlt : j < l.length := by simpa using hlt
      have hg : l.get ⟨j, hjlt⟩ = x := by simpa using hx
      have hxl : x ∈ l := hg ▸ List.get_mem l j hjlt
      have hy : y ≠ x := fun he => (List.nodup_cons.mp hnd).1 (he ▸ hxl)
      rw [position_elem, if_neg hy, ih j (List.nodup_cons.mp hnd).2 hjlt hg]
      rfl

theorem position_elem_append_left (l l' : List CrateNum) (x : CrateNum) (h : x ∈ l) :
    position_elem (l ++ l') x = position_elem l x := by
  induction l with
  | nil => simp at h
  | cons y l ih =>
    by_cases hy : y = x
    · simp [position_elem, hy]
    · have hx : x ∈ l := by
        rcases List.mem_cons.mp h with h1 | h1
        · exact absurd h1.symm hy
        · exact h1
      simp [position_elem, hy, ih hx]

theorem position_elem_append_self (l : List CrateNum) (x : CrateNum) (h : x ∉ l) :
    position_elem (l ++ [x]) x = some l.length := by
  induction l with
  | nil => simp [position_elem]
  | cons y l ih =>
    have hy : y ≠ x := fun he => h (he ▸ List.mem_cons_self y l)
    have hx : x ∉ l := fun hm => h (List.mem_cons_of_mem _ hm)
    simp [position_elem, hy, ih hx]

theorem position_elem_reverse (l : List CrateNum) (x : CrateNum) (i : Nat)
    (hnd : l.Nodup) (h : position_elem l x = some i) :
    position_elem l.reverse x = some (l.length - 1 - i) := by
  obtain ⟨hlt, hg⟩ := position_elem_getElem l x i h
  have hlt2 : l.length - 1 - i < l.reverse.length := by
    simp only [List.length_reverse]
    omega
  apply position_elem_of_getElem_nodup _ _ _ (List.nodup_reverse.mpr hnd) hlt2
  have hidx : l.length - 1 - (l.length - 1 - i) = i := by omega
  simp only [List.get_eq_getElem, List.getElem_reverse, hidx]
  simpa using hg

/-! ## Inversion lemmas for the depth-first traversal -/

theorem visitF_zero (metas : List (CrateNum × crate_metadata)) (c : CrateNum)
    (ord : List CrateNum) : visitF metas 0 c ord = none := by
  rw [visitF]

theorem visitF_succ_mem (metas : List (CrateNum × crate_metadata)) (fuel : Nat)
    (c : CrateNum) (ord : List CrateNum) (h : c ∈ ord) :
    visitF metas (fuel + 1) c ord = some ord := by
  rw [visitF, if_pos h]

theorem visitF_succ_inv (metas : List (CrateNum × crate_metadata)) (fuel : Nat)
    (c : CrateNum) (ord ord' : List CrateNum) (hc : c ∉ ord)
    (h : visitF metas (fuel + 1) c ord = some ord') :
    ∃ meta ord1, hmLookup metas c = some meta ∧
      visitList metas fuel (depsOf meta) ord = some ord1 ∧ ord' = ord1 ++ [c] := by
  rw [visitF, if_neg hc] at h
  split at h
  next => exact Option.noConfusion h
  next meta hm =>
    split at h
    next => exact Option.noConfusion h
    next ord1 hl => exact ⟨meta, ord1, hm, hl, (Option.some.inj h).symm⟩

theorem visitList_nil (metas : List (CrateNum × crate_metadata)) (fuel : Nat)
    (ord : List CrateNum) : visitList metas fuel [] ord = some ord := by
  rw [visitList]

theorem visitList_cons_inv (metas : List (CrateNum × crate_metadata)) (fuel : Nat)
    (d : CrateNum) (ds : List CrateNum) (ord ord' : List CrateNum)
    (h : visitList metas fuel (d :: ds) ord = some ord') :
    ∃ ord1, visitF metas fuel d ord = some ord1 ∧
      visitList metas fuel ds ord1 = some ord' := by
  rw [visitList] at h
  split at h
  next => exact Option.noConfusion h
  next ord1 hv => exact ⟨ord1, hv, h⟩

/-! ## Traversal invariants -/

theorem visit_append (metas : List (CrateNum × crate_metadata)) (fuel : Nat) :
    (∀ c ord ord', visitF metas fuel c ord = some ord' → ∃ new, ord' = ord ++ new) ∧
    (∀ ds ord ord', visitList metas fuel ds ord = some ord' → ∃ new, ord' = ord ++ new) := by
  induction fuel with
  | zero =>
    constructor
    · intro c ord ord' h
      rw [visitF_zero] at h
      exact Option.noConfusion h
    · intro ds ord ord' h
      cases ds with
      | nil =>
        rw [visitList_nil] at h
        refine ⟨[], ?_⟩
        rw [List.append_nil]
        exact (Option.some.inj h).symm
      | cons d ds =>
        obtain ⟨o1, hv, _⟩ := visitList_cons_inv _ _ _ _ _ _ h
        rw [visitF_zero] at hv
        exact Option.noConfusion hv
  | succ f ih =>
    have hF : ∀ c ord ord', visitF metas (f + 1) c ord = some ord' →
        ∃ new, ord' = ord ++ new := by
      intro c ord ord' h
      by_cases hc : c ∈ ord
      · rw [visitF_succ_mem _ _ _ _ hc] at h
        refine ⟨[], ?_⟩
        rw [List.append_nil]
        exact (Option.some.inj h).symm
      · obtain ⟨meta, ord1, hm, hl, rfl⟩ := visitF_succ_inv _ _ _ _ _ hc h
        obtain ⟨n1, rfl⟩ := ih.2 _ _ _ hl
        exact ⟨n1 ++ [c], by rw [List.append_assoc]⟩
    refine ⟨hF, ?_⟩
    intro ds
    induction ds with
    | nil =>
      intro ord ord' h
      rw [visitList_nil] at h
      refine ⟨[], ?_⟩
      rw [List.append_nil]
      exact (Option.some.inj h).symm
    | cons d ds ihds =>
      intro ord ord' h
      obtain ⟨o1, hv, hl⟩ := visitList_cons_inv _ _ _ _ _ _ h
      obtain ⟨n1, rfl⟩ := hF _ _ _ hv
      obtain ⟨n2, rfl⟩ := ihds _ _ hl
      exact ⟨n1 ++ n2, by rw [List.append_assoc]⟩

theorem visitF_self_mem (metas : List (CrateNum × crate_metadata)) (fuel : Nat)
    (c : CrateNum) (ord ord' : List CrateNum)
    (h : visitF metas fuel c ord = some ord') : c ∈ ord' := by
  cases fuel with
  | zero =>
    rw [visitF_zero] at h
    exact Option.noConfusion h
  | succ f =>
    by_cases hc : c ∈ ord
    · rw [visitF_succ_mem _ _ _ _ hc] at h
      exact (Option.some.inj h) ▸ hc
    · obtain ⟨meta, ord1, _, _, rfl⟩ := visitF_succ_inv _ _ _ _ _ hc h
      exact List.mem_append_right _ (by simp)

theorem visitList_all_mem (metas : List (CrateNum × crate_metadata)) (fuel : Nat) :
    ∀ ds ord ord', visitList metas fuel ds ord = some ord' → ∀ d ∈ ds, d ∈ ord' := by
  intro ds
  induction ds with
  | nil =>
    intro ord ord' _ d hd
    simp at hd
  | cons d0 ds ih =>
    intro ord ord' h d hd
    obtain ⟨o1, hv, hl⟩ := visitList_cons_inv _ _ _ _ _ _ h
    rcases List.mem_cons.mp hd with rfl | hd1
    · obtain ⟨new, rfl⟩ := (visit_append metas fuel).2 _ _ _ hl
      exact List.mem_append_left _ (visitF_self_mem _ _ _ _ _ hv)
    · exact ih _ _ hl d hd1

theorem visit_reach (metas : List (CrateNum × crate_metadata)) (fuel : Nat) :
    (∀ c ord ord', visitF metas fuel c ord = some ord' →
      ∀ y ∈ ord', y ∈ ord ∨ Reach metas c y) ∧
    (∀ ds ord ord', visitList metas fuel ds ord = some ord' →
      ∀ y ∈ ord', y ∈ ord ∨ ∃ d ∈ ds, Reach metas d y) := by
  induction fuel with
  | zero =>
    constructor
    · intro c ord ord' h
      rw [visitF_zero] at h
      exact Option.noConfusion h
    · intro ds ord ord' h y hy
      cases ds with
      | nil =>
        rw [visitList_nil] at h
        exact Or.inl ((Option.some.inj h) ▸ hy)
      | cons d ds =>
        obtain ⟨o1, hv, _⟩ := visitList_cons_inv _ _ _ _ _ _ h
        rw [visitF_zero] at hv
        exact Option.noConfusion hv
  | succ f ih =>
    have hF : ∀ c ord ord', visitF metas (f + 1) c ord = some ord' →
        ∀ y ∈ ord', y ∈ ord ∨ Reach metas c y := by
      intro c ord ord' h y hy
      by_cases hc : c ∈ ord
      · rw [visitF_succ_mem _ _ _ _ hc] at h
        exact Or.inl ((Option.some.inj h) ▸ hy)
      · obtain ⟨meta, ord1, hm, hl, rfl⟩ := visitF_succ_inv _ _ _ _ _ hc h
        rcases List.mem_append.mp hy with hy1 | hy1
        · rcases ih.2 _ _ _ hl y hy1 with h1 | ⟨d, hd, hr⟩
          · exact Or.inl h1
          · exact Or.inr (Reach.head ⟨meta, hm, hd⟩ hr)
        · have hyc : y = c := by simpa using hy1
          subst hyc
          exact Or.inr (Reach.refl y)
    refine ⟨hF, ?_⟩
    intro ds
    induction ds with
    | nil =>
      intro ord ord' h y hy
      rw [visitList_nil] at h
      exact Or.inl ((Option.some.inj h) ▸ hy)
    | cons d0 ds ihds =>
      intro ord ord' h y hy
      obtain ⟨o1, hv, hl⟩ := visitList_cons_inv _ _ _ _ _ _ h
      rcases ihds _ _ hl y hy with h1 | ⟨d, hd, hr⟩
      · rcases hF _ _ _ hv y h1 with h2 | h2
        · exact Or.inl h2
        · exact Or.inr ⟨d0, List.mem_cons_self d0 ds, h2⟩
      · exact Or.inr ⟨d, List.mem_cons_of_mem _ hd, hr⟩

theorem reach_rank_le (metas : List (CrateNum × crate_metadata)) (rank : CrateNum → Nat)
    (hrank : ∀ a b, Edge metas a b → rank b < rank a)
    (a b : CrateNum) (h : Reach metas a b) : rank b ≤ rank a := by
  induction h with
  | refl c => exact Nat.le_refl _
  | head hedge _ ihr => exact Nat.le_trans ihr (Nat.le_of_lt (hrank _ _ hedge))

theorem visit_inv (metas : List (CrateNum × crate_metadata)) (rank : CrateNum → Nat)
    (hrank : ∀ a b, Edge metas a b → rank b < rank a) (fuel : Nat) :
    (∀ c ord ord', visitF metas fuel c ord = some ord' → ord.Nodup → GoodOrd metas ord →
      ord'.Nodup ∧ GoodOrd metas ord') ∧
    (∀ ds ord ord', visitList metas fuel ds ord = some ord' → ord.Nodup → GoodOrd metas ord →
      ord'.Nodup ∧ GoodOrd metas ord') := by
  induction fuel with
  | zero =>
    constructor
    · intro c ord ord' h
      rw [visitF_zero] at h
      exact Option.noConfusion h
    · intro ds ord ord' h hnd hgood
      cases ds with
      | nil =>
        rw [visitList_nil] at h
        cases Option.some.inj h
        exact ⟨hnd, hgood⟩
      | cons d ds =>
        obtain ⟨o1, hv, _⟩ := visitList_cons_inv _ _ _ _ _ _ h
        rw [visitF_zero] at hv
        exact Option.noConfusion hv
  | succ f ih =>
    have hF : ∀ c ord ord', visitF metas (f + 1) c ord = some ord' → ord.Nodup →
        GoodOrd metas ord → ord'.Nodup ∧ GoodOrd metas ord' := by
      intro c ord ord' h hnd hgood
      by_cases hc : c ∈ ord
      · rw [visitF_succ_mem _ _ _ _ hc] at h
        cases Option.some.inj h
        exact ⟨hnd, hgood⟩
      · obtain ⟨meta, ord1, hm, hl, rfl⟩ := visitF_succ_inv _ _ _ _ _ hc h
        obtain ⟨hnd1, hgood1⟩ := ih.2 _ _ _ hl hnd hgood
        have hdeps : ∀ d ∈ depsOf meta, d ∈ ord1 := visitList_all_mem _ _ _ _ _ hl
        have hc1 : c ∉ ord1 := by
          intro hmem
          rcases (visit_reach metas f).2 _ _ _ hl c hmem with h1 | ⟨d, hd, hr⟩
          · exact hc h1
          · have hlt := hrank c d ⟨meta, hm, hd⟩
            have hle := reach_rank_le metas rank hrank d c hr
            omega
        constructor
        · rw [List.nodup_append]
          refine ⟨hnd1, List.nodup_singleton c, ?_⟩
          intro x hx1 hx2
          rw [List.mem_singleton] at hx2
          subst hx2
          exact hc1 hx1
        · intro c' d' hedge hcmem
          rcases List.mem_append.mp hcmem with hin | hin
          · obtain ⟨i, j, hdi, hcj, hij⟩ := hgood1 c' d' hedge hin
            have hdmem : d' ∈ ord1 := by
              by_contra hno
              rw [(position_elem_eq_none ord1 d').mpr hno] at hdi
              exact Option.noConfusion hdi
            refine ⟨i, j, ?_, ?_, hij⟩
            · rw [position_elem_append_left _ _ _ hdmem]
              exact hdi
            · rw [position_elem_append_left _ _ _ hin]
              exact hcj
          · have hcc : c' = c := by simpa using hin
            subst hcc
            obtain ⟨meta', hm', hd'⟩ := hedge
            obtain rfl : meta' = meta := Option.some.inj (hm'.symm.trans hm)
            have hd1 : d' ∈ ord1 := hdeps d' hd'
            obtain ⟨i, hpi⟩ := position_elem_mem ord1 d' hd1
            refine ⟨i, ord1.length, ?_, position_elem_append_self ord1 c' hc1,
              position_elem_lt_length _ _ _ hpi⟩
            rw [position_elem_append_left _ _ _ hd1]
            exact hpi
    refine ⟨hF, ?_⟩
    intro ds
    induction ds with
    | nil =>
      intro ord ord' h hnd hgood
      rw [visitList_nil] at h
      cases Option.some.inj h
      exact ⟨hnd, hgood⟩
    | cons d0 ds ihds =>
      intro ord ord' h hnd hgood
      obtain ⟨o1, hv, hl⟩ := visitList_cons_inv _ _ _ _ _ _ h
      obtain ⟨hnd1, hgood1⟩ := hF _ _ _ hv hnd hgood
      exact ihds _ _ hl hnd1 hgood1

/-! ## Comparator lemmas and the main ordering theorems -/

theorem optPosLe_trans (a b c : Option Nat) (h1 : optPosLe a b = true)
    (h2 : optPosLe b c = true) : optPosLe a c = true := by
  cases a <;> cases b <;> cases c
  all_goals simp [optPosLe] at *
  all_goals omega

theorem optPosLe_total (a b : Option Nat) : (optPosLe a b || optPosLe b a) = true := by
  cases a <;> cases b
  all_goals simp [optPosLe]
  all_goals omega

/-- C1: for every acyclic dependency graph registered in the store (witnessed
by a rank function that strictly decreases along every edge, which covers
diamonds), if the traversal of `get_used_crates` completes and every
registered used crate source has a distinct crate number, then for every edge
`c → d` whose endpoints have used sources, `d`'s index in the returned
sequence strictly exceeds `c`'s index, and `d` appears exactly once. -/
theorem get_used_crates_topological
    (s : CStore) (prefer : LinkagePreference) (fuel : Nat)
    (rank : CrateNum → Nat)
    (hrank : ∀ a b, Edge s.metas a b → rank b < rank a)
    (res : List (CrateNum × Option RPath))
    (hres : s.get_used_crates prefer fuel = some res)
    (hsrc : (s.used_crate_sources.map CrateSource.cnum).Nodup)
    (c d : CrateNum)
    (hedge : Edge s.metas c d)
    (hcs : c ∈ s.used_crate_sources.map CrateSource.cnum)
    (hds : d ∈ s.used_crate_sources.map CrateSource.cnum) :
    ∃ i j, position_elem (res.map Prod.fst) c = some i ∧
      position_elem (res.map Prod.fst) d = some j ∧ i < j ∧
      List.count d (res.map Prod.fst) = 1 := by
  unfold CStore.get_used_crates at hres
  split at hres
  next => exact Option.noConfusion hres
  next ordering hord =>
  have hres3 := (Option.some.inj hres).symm
  rw [CStore.link_ordering] at hord
  split at hord
  next => exact Option.noConfusion hord
  next ord0 hv =>
  obtain rfl : ordering = ord0.reverse := (Option.some.inj hord).symm
  obtain ⟨hnd0, hgood0⟩ := (visit_inv s.metas rank hrank fuel).2 _ _ _ hv List.nodup_nil
    (by intro c' d' _ hmem; simp at hmem)
  have hckey : c ∈ s.metas.map Prod.fst := by
    obtain ⟨meta, hm, _⟩ := hedge
    exact (hmLookup_isSome_iff s.metas c).mp (by rw [hm]; rfl)
  have hc0 : c ∈ ord0 := visitList_all_mem _ _ _ _ _ hv c hckey
  obtain ⟨i0, j0, hdi0, hcj0, hij0⟩ := hgood0 c d hedge hc0
  have hcrev := position_elem_reverse ord0 c j0 hnd0 hcj0
  have hdrev := position_elem_reverse ord0 d i0 hnd0 hdi0
  have hj0n : j0 < ord0.length := position_elem_lt_length _ _ _ hcj0
  have hperm0 : res.Perm (s.used_crate_sources.map (fun src =>
      (src.cnum, match prefer with
        | LinkagePreference.RequireDynamic => src.dylib
        | LinkagePreference.RequireStatic => src.rlib))) :=
    hres3 ▸ List.mergeSort_perm _ _
  have hfst : (s.used_crate_sources.map (fun src =>
      (src.cnum, match prefer with
        | LinkagePreference.RequireDynamic => src.dylib
        | LinkagePreference.RequireStatic => src.rlib))).map Prod.fst
      = s.used_crate_sources.map CrateSource.cnum := by
    rw [List.map_map]
    rfl
  have hperm : (res.map Prod.fst).Perm (s.used_crate_sources.map CrateSource.cnum) := by
    have := hperm0.map Prod.fst
    rwa [hfst] at this
  have hndres : (res.map Prod.fst).Nodup := hperm.nodup_iff.mpr hsrc
  have hcres : c ∈ res.map Prod.fst := hperm.mem_iff.mpr hcs
  have hdres : d ∈ res.map Prod.fst := hperm.mem_iff.mpr hds
  obtain ⟨ic, hic⟩ := position_elem_mem _ c hcres
  obtain ⟨jd, hjd⟩ := position_elem_mem _ d hdres
  refine ⟨ic, jd, hic, hjd, ?_, List.count_eq_one_of_mem hndres hdres⟩
  obtain ⟨hiclt, hgc⟩ := position_elem_getElem _ _ _ hic
  obtain ⟨hjdlt, hgd⟩ := position_elem_getElem _ _ _ hjd
  have hcd : c ≠ d := by
    intro he
    rw [he, hdi0] at hcj0
    cases Option.some.inj hcj0
    omega
  have hicjd : ic ≠ jd := by
    intro he
    apply hcd
    rw [← hgc, ← hgd]
    congr 1
    exact Fin.ext he
  have hpair := @List.sorted_mergeSort (CrateNum × Option RPath)
    (fun a b =>
      optPosLe (position_elem ord0.reverse a.1) (position_elem ord0.reverse b.1))
    (fun a b c h1 h2 => optPosLe_trans _ _ _ h1 h2)
    (fun a b => optPosLe_total _ _)
    (s.used_crate_sources.map (fun src =>
      (src.cnum, match prefer with
        | LinkagePreference.RequireDynamic => src.dylib
        | LinkagePreference.RequireStatic => src.rlib)))
  rw [← hres3] at hpair
  by_contra hnot
  have hjdic : jd < ic := by omega
  have hiclt2 : ic < res.length := by
    have := hiclt
    rwa [List.length_map] at this
  have hjdlt2 : jd < res.length := by
    have := hjdlt
    rwa [List.length_map] at this
  have hcmp := List.pairwise_iff_getElem.mp hpair jd ic hjdlt2 hiclt2 hjdic
  have hgc2 : (res.get ⟨ic, hiclt2⟩).1 = c := by
    rw [← hgc, List.get_eq_getElem, List.get_eq_getElem, List.getElem_map]
  have hgd2 : (res.get ⟨jd, hjdlt2⟩).1 = d := by
    rw [← hgd, List.get_eq_getElem, List.get_eq_getElem, List.getElem_map]
  rw [List.get_eq_getElem] at hgc2 hgd2
  rw [hgd2, hgc2, hdrev, hcrev] at hcmp
  simp only [optPosLe, decide_eq_true_eq] at hcmp
  omega

unseal List.merge List.mergeSort visitF visitList in
theorem get_used_crates_topological_witness :
    ∃ i j,
      position_elem (List.map Prod.fst
        ([(1, some "r1"), (0, some "r0"), (2, some "r2"), (3, some "r3")] :
          List (CrateNum × Option RPath))) 0 = some i ∧
      position_elem (List.map Prod.fst
        ([(1, some "r1"), (0, some "r0"), (2, some "r2"), (3, some "r3")] :
          List (CrateNum × Option RPath))) 2 = some j ∧
      i < j ∧
      List.count 2 (List.map Prod.fst
        ([(1, some "r1"), (0, some "r0"), (2, some "r2"), (3, some "r3")] :
          List (CrateNum × Option RPath))) = 1 :=
  get_used_crates_topological exDiamondStore LinkagePreference.RequireStatic 16 exRank
    (by
      intro a b hedge
      obtain ⟨m, hm, hd⟩ := hedge
      simp only [exDiamondStore, exDiamondMetas, hmLookup] at hm
      split_ifs at hm with h0 h1 h2 h3
      · cases Option.some.inj hm
        subst h0
        simp [mkMeta, depsOf] at hd
        rcases hd with rfl | rfl
        · decide
        · decide
      · cases Option.some.inj hm
        subst h1
        simp [mkMeta, depsOf] at hd
        subst hd
        decide
      · cases Option.some.inj hm
        subst h2
        simp [mkMeta, depsOf] at hd
        subst hd
        decide
      · cases Option.some.inj hm
        subst h3
        simp [mkMeta, depsOf] at hd)
    [(1, some "r1"), (0, some "r0"), (2, some "r2"), (3, some "r3")]
    (by rfl)
    (by decide)
    0 2
    ⟨mkMeta 0 [2, 3], by rfl, by decide⟩
    (by decide)
    (by decide)

/-- C2 (amended): in `get_used_crates`'s result, every stored crate source
whose crate number is absent from the computed topological ordering is placed
**before** (not after) every source whose crate number is present — absent
positions compare as `None`, and the derived `Option` order puts `None`
first; the comparator remains a total preorder, so results are still
deterministic.  Stated as: anything at or before an absent-position entry is
itself absent. -/
theorem get_used_crates_absent_sort_first
    (s : CStore) (prefer : LinkagePreference) (fuel : Nat)
    (ordering : List CrateNum) (res : List (CrateNum × Option RPath))
    (hord : s.link_ordering fuel = some ordering)
    (hres : s.get_used_crates prefer fuel = some res)
    (i j : Nat) (hi : i < res.length) (hj : j < res.length) (hij : i < j)
    (habs : position_elem ordering (res.get ⟨j, hj⟩).1 = none) :
    position_elem ordering (res.get ⟨i, hi⟩).1 = none := by
  unfold CStore.get_used_crates at hres
  rw [hord] at hres
  have hres3 := (Option.some.inj hres).symm
  have hpair := @List.sorted_mergeSort (CrateNum × Option RPath)
    (fun a b =>
      optPosLe (position_elem ordering a.1) (position_elem ordering b.1))
    (fun a b c h1 h2 => optPosLe_trans _ _ _ h1 h2)
    (fun a b => optPosLe_total _ _)
    (s.used_crate_sources.map (fun src =>
      (src.cnum, match prefer with
        | LinkagePreference.RequireDynamic => src.dylib
        | LinkagePreference.RequireStatic => src.rlib)))
  rw [← hres3] at hpair
  have hcmp := List.pairwise_iff_getElem.mp hpair i j hi hj hij
  rw [List.get_eq_getElem] at habs ⊢
  cases hpi : position_elem ordering res[i].1 with
  | none => rfl
  | some p =>
    rw [hpi, habs] at hcmp
    simp [optPosLe] at hcmp

unseal List.merge List.mergeSort visitF visitList in
/-- C2 (counterexample to the claim as stated): with one registered crate
(number 1) and used sources for crate numbers 2 (absent from the ordering)
and 1 (present), the absent-numbered source is placed at index 0, before the
present-numbered one at index 1 — not after it, as the claim demands. -/
theorem get_used_crates_absent_sort_first_cex :
    exStrayStore.link_ordering 4 = some [1] ∧
    exStrayStore.get_used_crates LinkagePreference.RequireStatic 4
      = some [(2, some "r2"), (1, some "r1")] ∧
    position_elem [1] 2 = none ∧
    position_elem [1] 1 = some 0 ∧
    position_elem (List.map Prod.fst
      ([(2, some "r2"), (1, some "r1")] : List (CrateNum × Option RPath))) 2 = some 0 ∧
    position_elem (List.map Prod.fst
      ([(2, some "r2"), (1, some "r1")] : List (CrateNum × Option RPath))) 1 = some 1 ∧
    ¬ (∃ i j, position_elem (List.map Prod.fst
        ([(2, some "r2"), (1, some "r1")] : List (CrateNum × Option RPath))) 1 = some i ∧
      position_elem (List.map Prod.fst
        ([(2, some "r2"), (1, some "r1")] : List (CrateNum × Option RPath))) 2 = some j ∧
      i < j) := by
  refine ⟨by rfl, by rfl, by decide, by decide, by decide, by decide, ?_⟩
  rintro ⟨i, j, hi, hj, hij⟩
  simp [position_elem] at hi hj
  omega

unseal List.merge List.mergeSort visitF visitList in
theorem get_used_crates_absent_sort_first_witness :
    position_elem [] ((([(5, some "a"), (6, some "b")] :
      List (CrateNum × Option RPath)).get ⟨0, by decide⟩).1) = none :=
  get_used_crates_absent_sort_first exAbsentStore LinkagePreference.RequireDynamic 1
    [] [(5, some "a"), (6, some "b")] (by rfl) (by rfl)
    0 1 (by decide) (by decide) (by decide) (by decide)

end CStoreModel
